import Mathlib

/-!
Shallow embedding of the `mustex` LaTeX-example generators
(`cycles.py`, `linear_table.py`, `schema.py`, `utils.py`).

Each Python generator performs validation and then a sequence of `f.write`
calls to one output file.  We model a generation call as a pure function
returning the list of written items together with an `Except` result:
`(out, .ok ())` models a normal run that wrote exactly `out`, and
`(out, .error e)` models a run that wrote `out` and then raised `e`.
Fixed boilerplate writes are kept as their literal strings (`Item.text`);
writes whose interpolated data the properties are about (circle nodes and
connecting segments) are kept structured, carrying every value the Python
f-string interpolates.
-/

/-- Python exceptions distinguished by the code: `ValueError msg` for the
`raise ValueError(...)` statements (and `math.log2` domain errors), and
`IndexError` for out-of-bounds list indexing such as `ks[-1]` on `[]`. -/
inductive PyError where
  | valueError (msg : String)
  | indexError
  deriving DecidableEq, Repr

/-- `utils.pitch_name_list`: the 12-entry pitch-name table
`["C", "C$\sharp$", "D", "E$\flat$", ...]` (backslashes as in the
generated LaTeX). -/
def pitch_name_list : List String :=
  ["C", "C$\\sharp$", "D", "E$\\flat$", "E", "F", "F$\\sharp$", "G",
   "A$\\flat$", "A", "B$\\flat$", "B"]

/-- Python's `%` on rationals with positive modulus: `x - y * ⌊x / y⌋`. -/
def qmod (x y : ℚ) : ℚ := x - y * ⌊x / y⌋

/-- Label placement: either the exact angle (`label_angles=True`) or a
compass word chosen from `i / n`. -/
inductive LabelPos where
  | angle (a : ℚ)
  | above
  | below
  | left
  | right
  deriving DecidableEq, Repr

/-- The data interpolated into one node string of `node_strings`
(`cycles.py` line 83): index, angle, radius variable, fill colour, label
position and label text. -/
structure NodeData where
  i : ℕ
  angle : ℚ
  radius_string : String
  colour : String
  pos : LabelPos
  label : String
  deriving DecidableEq, Repr

/-- Error message of the `n != 12` check in `node_strings`. -/
def tonalityMsg (n : ℕ) : String :=
  "To use the pitch class labels, the cycle length (currently " ++ toString n
    ++ ") must be 12."

/-- One iteration of the `for i in range(n)` loop body of `node_strings`:
angle `(360 + 90 - (i/n)*360) % 360`, fill colour black iff `i ∈ ks`, label
position by angle or compass quadrant, and label text by mode. -/
def mkNode (ks : List ℤ) (n : ℕ) (label_angles : Bool)
    (denominator_in_label : Bool) (tonality_not_count : Bool)
    (radius_string : String) (i : ℕ) : NodeData :=
  { i := i
    angle := qmod (360 + 90 - ((i : ℚ) / (n : ℚ)) * 360) 360
    radius_string := radius_string
    colour := if (i : ℤ) ∈ ks then "black" else "white"
    pos :=
      if label_angles then
        .angle (qmod (360 + 90 - ((i : ℚ) / (n : ℚ)) * 360) 360)
      else if (i : ℚ) / (n : ℚ) = 0 then .above
      else if (i : ℚ) / (n : ℚ) < 1/2 then .right
      else if (i : ℚ) / (n : ℚ) = 1/2 then .below
      else .left
    label :=
      if tonality_not_count then pitch_name_list.getD i ""
      else if denominator_in_label then toString i ++ "/" ++ toString n
      else toString i }

/-- `cycles.node_strings`: validates the tonality request, then produces one
node per `i in range(n)`. -/
def node_strings (ks : List ℤ) (n : ℕ) (label_angles : Bool)
    (denominator_in_label : Bool) (tonality_not_count : Bool)
    (radius_string : String) : Except String (List NodeData) :=
  if tonality_not_count ∧ n ≠ 12 then
    .error (tonalityMsg n)
  else
    .ok <| (List.range n).map
      (mkNode ks n label_angles denominator_in_label tonality_not_count
        radius_string)

/-- One written item of a cycle-diagram file: fixed boilerplate text, a node
string, or a `\draw[solid] (na) -- (nb);` segment between nodes `a` and `b`. -/
inductive Item where
  | text (s : String)
  | node (d : NodeData)
  | segment (a b : ℤ)
  deriving DecidableEq, Repr

/-- Error message of the highlighted-index range check in
`single_cycle_example` (`cycles.py` line 123). -/
def oorMsg (k : ℤ) (n : ℕ) : String :=
  "Highlighted index " ++ toString k ++ " is greater than the total n ("
    ++ toString n ++ ")."

/-- The first highlighted index failing `k in range(n)`, i.e. the one the
validation loop raises about. -/
def firstBad (ks : List ℤ) (n : ℕ) : Option ℤ :=
  ks.find? (fun k => decide (k < 0 ∨ (n : ℤ) ≤ k))

/-- `int(math.log2(n) - 1)`, e.g. 2 for n=8 (`cycles.py` line 133); for
`n ≥ 1` this is `⌊log2 n⌋ - 1`.  Only interpolated into boilerplate text. -/
def pyScale (n : ℕ) : ℤ := (Nat.log2 n : ℤ) - 1

/-- `itertools.combinations(ks, 2)`: pairs `(ks[i], ks[j])` with `i < j`,
in lexicographic position order. -/
def combinations2 : List ℤ → List (ℤ × ℤ)
  | [] => []
  | x :: xs => xs.map (fun y => (x, y)) ++ combinations2 xs

/-- The four preamble lines written when `include_preamble` is set. -/
def preambleLines : List Item :=
  [.text "\\documentclass[tikz,border=10pt]\x7bstandalone\x7d\n",
   .text "\\usepackage\x7btikz\x7d\n",
   .text "\\usetikzlibrary\x7bshapes.misc, arrows.meta, bending\x7d\n",
   .text "\\begin\x7bdocument\x7d\n"]

/-- The `\begin{tikzpicture}[scale={...}]` line of `single_cycle_example`. -/
def scaleLine (n : ℕ) : Item :=
  .text ("\\begin\x7btikzpicture\x7d[scale=\x7b" ++ toString (pyScale n)
    ++ "\x7d]\n")

/-- The `\def \radius{...}` line. -/
def radiusLine (radius : ℚ) : Item :=
  .text ("\\def \\radius\x7b" ++ toString radius ++ "\x7d\n")

/-- The origin node and circle lines. -/
def originLine : Item := .text "\\node (origin) at (0,0) \x7b\x7d;\n"

/-- The `\draw (origin) circle (\radius);` line. -/
def circleLine : Item := .text "\\draw (origin) circle (\\radius);\n"

/-- The `\end{tikzpicture}` line. -/
def endTikz : Item := .text "\\end\x7btikzpicture\x7d\n"

/-- The `\end{document}` line. -/
def endDoc : Item := .text "\\end\x7bdocument\x7d\n"

/-- `cycles.single_cycle_example`: validate explicitly supplied highlights
(defaulting `None` to `range(n)`), open the output file, write preamble,
scale, radius, origin and circle lines, the node strings, then the optional
connecting segments (adjacent mode: `ks[i] -- ks[i+1]` for
`i in range(len(ks) - 1)` and a final `ks[-1] -- n0`; all-pairs mode: all
`combinations(ks, 2)`), and the closing lines.  `math.log2(0)` and `ks[-1]`
on an empty list surface as the corresponding `PyError`s, with the items
written so far. -/
def single_cycle_example (ksArg : Option (List ℤ)) (n : ℕ) (radius : ℚ)
    (lines adjacent_not_all tonality_not_count include_preamble : Bool) :
    List Item × Except PyError Unit :=
  let ks : List ℤ := match ksArg with
    | none => (List.range n).map Int.ofNat
    | some l => l
  match ksArg, firstBad ks n with
  | some _, some k => ([], .error (.valueError (oorMsg k n)))
  | _, _ =>
    let pre : List Item := if include_preamble then preambleLines else []
    if n = 0 then
      (pre, .error (.valueError "math domain error"))
    else
      let header := pre ++ [scaleLine n, radiusLine radius, originLine, circleLine]
      match node_strings ks n true false tonality_not_count "\\radius" with
      | .error msg => (header, .error (.valueError msg))
      | .ok nodes =>
        let out1 := header ++ nodes.map Item.node
        if lines then
          if adjacent_not_all then
            let segs := (List.range (ks.length - 1)).map
              (fun i => Item.segment (ks.getD i 0) (ks.getD (i + 1) 0))
            match ks.getLast? with
            | none => (out1 ++ segs, .error .indexError)
            | some last =>
              (out1 ++ segs ++ [Item.segment last 0, endTikz]
                ++ (if include_preamble then [endDoc] else []), .ok ())
          else
            let segs := (combinations2 ks).map (fun p => Item.segment p.1 p.2)
            (out1 ++ segs ++ [endTikz]
              ++ (if include_preamble then [endDoc] else []), .ok ())
        else
          (out1 ++ [endTikz]
            ++ (if include_preamble then [endDoc] else []), .ok ())

/-- Extract the `(a, b)` of a segment item. -/
def segOf : Item → Option (ℤ × ℤ)
  | .segment a b => some (a, b)
  | _ => none

/-- Extract the data of a node item. -/
def nodeOf : Item → Option NodeData
  | .node d => some d
  | _ => none

/-- `linear_table.midi_pitch_pc_table`'s MIDI cells:
`range(start_octave * 12, end_octave * 12)`. -/
def table_ints (start_octave end_octave : ℤ) : List ℤ :=
  (List.range (end_octave * 12 - start_octave * 12).toNat).map
    (fun (j : ℕ) => start_octave * 12 + (j : ℤ))

/-- Python list repetition `l * k` (empty for `k ≤ 0`). -/
def pyListMul {α : Type} (l : List α) (k : ℤ) : List α :=
  (List.replicate k.toNat l).flatten

/-- The pitch-class cells: `list(range(12)) * octaves` with
`octaves = end_octave - start_octave`. -/
def table_pcs (start_octave end_octave : ℤ) : List ℤ :=
  pyListMul ((List.range 12).map Int.ofNat) (end_octave - start_octave)

/-- The pitch-name cells: `pitch_name_list * octaves`. -/
def table_names (start_octave end_octave : ℤ) : List String :=
  pyListMul pitch_name_list (end_octave - start_octave)

/-- The joined MIDI row string `" & ".join(d + [str(x) for x in ints] + d)`
with `d = ["\dots"]` when open-ended and `[""]` otherwise. -/
def table_midis (start_octave end_octave : ℤ) (open_ended : Bool) : String :=
  let d : List String := if open_ended then ["\\dots"] else [""]
  String.intercalate " & " (d ++ (table_ints start_octave end_octave).map toString ++ d)

/-- One rectangle of `linear_table.grid_tatum`: bottom-left
`(length_unit * i / n, n)`, top-right `((i + 1) * length_unit / n, n + 1)`,
label `"1/" + str(n)`. -/
structure Rect where
  x0 : ℚ
  y0 : ℚ
  x1 : ℚ
  y1 : ℚ
  label : String
  deriving DecidableEq, Repr

/-- `linear_table.grid_tatum`'s rows of rectangles: for `n in range(n_divs)`,
row `n` holds one rectangle per `i in range(n)`. -/
def grid_rows (n_divs : ℕ) (length_unit : ℚ) : List (List Rect) :=
  (List.range n_divs).map (fun (n : ℕ) =>
    (List.range n).map (fun (i : ℕ) =>
      { x0 := length_unit * (i : ℚ) / (n : ℚ)
        y0 := (n : ℚ)
        x1 := ((i : ℚ) + 1) * length_unit / (n : ℚ)
        y1 := (n : ℚ) + 1
        label := "1/" ++ toString n }))

/-- One entry of `schema_example`'s `circles` argument: a dict with keys
`"name"` and `"tag"`. -/
structure SchemaCircle where
  name : String
  tag : ℤ
  deriving DecidableEq, Repr

/-- One curved arrow written by `schema_example`: target node `top{i+1}`,
bend direction (`"left"` for even position, `"right"` for odd), the
accumulated bend angle, and the tag annotation. -/
structure Arrow where
  target : ℕ
  direction : String
  bend : ℤ
  tag : ℤ
  deriving DecidableEq, Repr

/-- The arrow loop of `schema_example`: `bend_angle` starts at 0 and grows
by 20 each iteration; position parity picks the direction. -/
def schema_arrows_aux (i : ℕ) (bend_angle : ℤ) :
    List SchemaCircle → List Arrow
  | [] => []
  | c :: rest =>
    { target := i + 1
      direction := if i % 2 = 0 then "left" else "right"
      bend := bend_angle
      tag := c.tag } :: schema_arrows_aux (i + 1) (bend_angle + 20) rest

/-- All arrows of one `schema_example` call. -/
def schema_arrows (circles : List SchemaCircle) : List Arrow :=
  schema_arrows_aux 0 0 circles

/-- One written item of a schema file. -/
inductive SItem where
  | text (s : String)
  | rootNode (name : String)
  | topNode (i : ℕ) (name : String)
  | box (top : ℚ)
  | arrow (a : Arrow)
  deriving DecidableEq, Repr

/-- `schema.schema_example`: check `tags != sorted(tags)` before opening the
file; then write the preamble, the root node, one `top{i+1}` node per circle,
the bounding box using the last loop index (a `NameError`, modelled as
`indexError`, when `circles` is empty), and the curved arrows.  Python's
`sorted` is modelled by `List.mergeSort`. -/
def schema_example (root_name : String) (circles : List SchemaCircle)
    (include_preamble : Bool) : List SItem × Except PyError Unit :=
  let tags := circles.map (·.tag)
  if tags ≠ tags.mergeSort (fun a b => a ≤ b) then
    ([], .error (.valueError "Tags must be in increasing order"))
  else
    let pre : List SItem := if include_preamble then
      [.text "\\documentclass[tikz,border=10pt]\x7bstandalone\x7d\n",
       .text "\\usepackage\x7btikz\x7d\n",
       .text "\\usetikzlibrary\x7bshapes.misc, arrows.meta, bending\x7d\n",
       .text "\\begin\x7bdocument\x7d\n"] else []
    let header := pre ++ [.text "\\begin\x7btikzpicture\x7d\n",
      .rootNode root_name]
      ++ (List.range circles.length).map (fun i =>
        SItem.topNode (i + 1) ((circles.getD i ⟨"", 0⟩).name))
    match circles.length with
    | 0 => (header, .error .indexError)
    | m + 1 =>
      (header ++ [.box ((m : ℚ) + 1.5),
        .text "    % Draw curved arrows with annotations\n"]
        ++ (schema_arrows circles).map SItem.arrow
        ++ [.text "\\end\x7btikzpicture\x7d\n"]
        ++ (if include_preamble then [.text "\\end\x7bdocument\x7d\n"] else []),
       .ok ())

/-- Default node data for safe indexing in theorem statements. -/
def dNode : NodeData :=
  ⟨0, 0, "", "", .above, ""⟩

/-- Modelled from the spec's angle formula: `(450 − 360·i/n) mod 360`
degrees — stated to be compared with the angle the code computes. -/
def spec_angle (i n : ℕ) : ℚ := qmod (450 - 360 * (i : ℚ) / (n : ℚ)) 360

/-- The fixed header written after opening the file (no preamble case). -/
def cycleHeader (n : ℕ) (r : ℚ) : List Item :=
  [scaleLine n, radiusLine r, originLine, circleLine]

/-- Default rectangle for safe indexing in theorem statements. -/
def dRect : Rect := ⟨0, 0, 0, 0, ""⟩

/-- Default arrow for safe indexing in theorem statements. -/
def dArrow : Arrow := ⟨0, "", 0, 0⟩

/-- Default circle entry. -/
def dCircle : SchemaCircle := ⟨"", 0⟩

/-- Extract the data of an arrow item. -/
def arrowOf : SItem → Option Arrow
  | .arrow a => some a
  | _ => none

/-- `getD` applied to a map over `List.range`. -/
theorem getD_map_range {α : Type} {f : ℕ → α} {n i : ℕ} (h : i < n) {d : α} :
    ((List.range n).map f).getD i d = f i := by
  rw [List.getD_eq_getElem?_getD, List.getElem?_map, List.getElem?_range h]
  rfl

/-- With the count-label mode, `node_strings` never fails. -/
theorem node_strings_count (ks : List ℤ) (n : ℕ) (la dl : Bool)
    (rs : String) :
    node_strings ks n la dl false rs
      = .ok ((List.range n).map (mkNode ks n la dl false rs)) := by
  simp [node_strings]

/-- C3: for every point count n ≥ 1 and every highlighted set S ⊆ [0,n),
the generator emits one node per index i ∈ [0,n) whose angular position
equals (450 − 360·i/n) mod 360 degrees, and index 0 is placed at angle 90. -/
theorem C3_node_angles (n : ℕ) (ks : List ℤ) (h1 : 1 ≤ n)
    (hS : ∀ k ∈ ks, 0 ≤ k ∧ k < (n : ℤ)) :
    ∃ nodes, node_strings ks n true false false "\\radius" = .ok nodes ∧
      nodes.length = n ∧
      (∀ i, i < n → (nodes.getD i dNode).i = i ∧
        (nodes.getD i dNode).angle = spec_angle i n) ∧
      (nodes.getD 0 dNode).angle = 90 := by
  refine ⟨_, node_strings_count ks n true false "\\radius", by simp, ?_, ?_⟩
  · intro i hi
    rw [getD_map_range hi]
    refine ⟨rfl, ?_⟩
    show qmod (360 + 90 - ((i : ℚ) / (n : ℚ)) * 360) 360 = spec_angle i n
    unfold spec_angle
    congr 1
    ring
  · rw [getD_map_range h1]
    show qmod (360 + 90 - ((0 : ℚ) / (n : ℚ)) * 360) 360 = 90
    have h4 : ⌊(450 : ℚ) / 360⌋ = 1 := by
      rw [Int.floor_eq_iff] <;> norm_num
    unfold qmod
    norm_num [h4]

/-- C3 witness: instantiation at n = 8, ks = [0, 3, 6]. -/
theorem C3_witness :
    ∃ nodes, node_strings [0, 3, 6] 8 true false false "\\radius" = .ok nodes ∧
      nodes.length = 8 ∧
      (∀ i, i < 8 → (nodes.getD i dNode).i = i ∧
        (nodes.getD i dNode).angle = spec_angle i 8) ∧
      (nodes.getD 0 dNode).angle = 90 :=
  C3_node_angles 8 [0, 3, 6] (by decide) (by decide)

/-- C4: pitch-class labelling succeeds iff n = 12, raising the
InvalidLabelMode error for any n ≠ 12; and for n = 12 the label of node i
is entry i of the 12-entry pitch-name table, for all i. -/
theorem C4_tonality_labels (n : ℕ) (ks : List ℤ) :
    ((∃ nodes, node_strings ks n true false true "\\radius" = .ok nodes)
       ↔ n = 12) ∧
    (n ≠ 12 →
      node_strings ks n true false true "\\radius"
        = .error (tonalityMsg n)) ∧
    ((node_strings ks 12 true false true "\\radius").toOption.getD []).map
        (·.label) = pitch_name_list := by
  refine ⟨?_, ?_, ?_⟩
  · by_cases h : n = 12 <;> simp [node_strings, h]
  · intro h; simp [node_strings, h]
  · simp only [node_strings, mkNode]
    norm_num [Except.toOption, List.map_map]
    rfl

/-- C4 witness: n = 5 is rejected with the InvalidLabelMode message. -/
theorem C4_witness :
    (5 : ℕ) ≠ 12 ∧
    node_strings [] 5 true false true "\\radius" = .error (tonalityMsg 5) :=
  ⟨by decide, (C4_tonality_labels 5 []).2.1 (by decide)⟩

/-- A failed range check makes `single_cycle_example` raise before opening
the file: no output at all. -/
theorem scex_oor (ks : List ℤ) (n : ℕ) (r : ℚ) (l a t p : Bool) (k : ℤ)
    (h : firstBad ks n = some k) :
    single_cycle_example (some ks) n r l a t p
      = ([], .error (.valueError (oorMsg k n))) := by
  simp [single_cycle_example, h]

/-- Valid highlights, tonality off, adjacent mode, non-empty list: the run
completes, writing header, nodes, the in-order segments and the closing
segment to node 0. -/
theorem scex_adj (ks : List ℤ) (n : ℕ) (r : ℚ)
    (h : firstBad ks n = none) (hn : n ≠ 0) (hne : ks ≠ []) :
    single_cycle_example (some ks) n r true true false false
      = (cycleHeader n r
          ++ ((List.range n).map (mkNode ks n true false false "\\radius")).map
            Item.node
          ++ (List.range (ks.length - 1)).map
            (fun i => Item.segment (ks.getD i 0) (ks.getD (i + 1) 0))
          ++ [Item.segment (ks.getLast hne) 0, endTikz], .ok ()) := by
  simp [single_cycle_example, h, hn, node_strings_count,
    List.getLast?_eq_getLast ks hne, cycleHeader]

/-- Valid empty highlight list in adjacent mode: the run writes header and
nodes, then fails on `ks[-1]` with an IndexError. -/
theorem scex_adj_nil (n : ℕ) (r : ℚ) (hn : n ≠ 0) :
    single_cycle_example (some []) n r true true false false
      = (cycleHeader n r
          ++ ((List.range n).map (mkNode [] n true false false "\\radius")).map
            Item.node, .error .indexError) := by
  simp [single_cycle_example, firstBad, hn, node_strings_count, cycleHeader]

/-- Valid highlights, tonality off, all-pairs mode: the run completes,
writing one segment per element of `combinations(ks, 2)`. -/
theorem scex_allpairs (ks : List ℤ) (n : ℕ) (r : ℚ)
    (h : firstBad ks n = none) (hn : n ≠ 0) :
    single_cycle_example (some ks) n r true false false false
      = (cycleHeader n r
          ++ ((List.range n).map (mkNode ks n true false false "\\radius")).map
            Item.node
          ++ (combinations2 ks).map (fun p => Item.segment p.1 p.2)
          ++ [endTikz], .ok ()) := by
  simp [single_cycle_example, h, hn, node_strings_count, cycleHeader]

/-- Valid highlights but tonality requested with n ≠ 12: the file has been
opened and the header written before the error is raised. -/
theorem scex_tonality (ks : List ℤ) (n : ℕ) (r : ℚ) (lines adj : Bool)
    (h : firstBad ks n = none) (hn : n ≠ 0) (h12 : n ≠ 12) :
    single_cycle_example (some ks) n r lines adj true false
      = (cycleHeader n r, .error (.valueError (tonalityMsg n))) := by
  simp [single_cycle_example, h, hn, node_strings, h12, cycleHeader]

/-- C9: with an explicitly supplied highlight list, the generator raises the
OutOfRangeIndex ValueError iff some highlighted index is outside [0,n); its
message (built by `oorMsg`) names the first offending index and the bound n;
in particular n = 8 with highlights [0,3,9] raises the error citing 9. -/
theorem C9_range_validation (n : ℕ) (ks : List ℤ) (r : ℚ) (h1 : 1 ≤ n) :
    ((∃ k ∈ ks, k < 0 ∨ (n : ℤ) ≤ k) ↔
      ∃ k, (single_cycle_example (some ks) n r true true false false).2
        = .error (.valueError (oorMsg k n))) ∧
    (∀ k, firstBad ks n = some k → k ∈ ks ∧ (k < 0 ∨ (n : ℤ) ≤ k) ∧
      (single_cycle_example (some ks) n r true true false false).2
        = .error (.valueError (oorMsg k n))) ∧
    (single_cycle_example (some [0, 3, 9]) 8 1 true true false false).2
      = .error (.valueError (oorMsg 9 8)) := by
  have hn : n ≠ 0 := by omega
  refine ⟨⟨?_, ?_⟩, ?_, ?_⟩
  · rintro ⟨k, hk, hbad⟩
    have hsome : (firstBad ks n).isSome := by
      rw [firstBad, List.find?_isSome]
      exact ⟨k, hk, by simpa using hbad⟩
    obtain ⟨k', hk'⟩ := Option.isSome_iff_exists.mp hsome
    exact ⟨k', by rw [scex_oor ks n r true true false false k' hk']⟩
  · rintro ⟨k, hres⟩
    by_contra hno
    push_neg at hno
    have hfb : firstBad ks n = none := by
      rw [firstBad, List.find?_eq_none]
      intro x hx
      have := hno x hx
      simp only [decide_eq_true_eq]
      omega
    match ks, hfb with
    | [], hfb =>
      rw [scex_adj_nil n r hn] at hres
      simp at hres
    | (x :: xs), hfb =>
      rw [scex_adj (x :: xs) n r hfb hn (by simp)] at hres
      simp at hres
  · intro k hk
    refine ⟨List.mem_of_find?_eq_some hk, ?_,
      by rw [scex_oor ks n r true true false false k hk]⟩
    have := List.find?_some hk
    simpa using this
  · rw [scex_oor [0, 3, 9] 8 1 true true false false 9 (by decide)]

/-- C9 witness: instantiation at n = 8, ks = [0, 3, 9]. -/
theorem C9_witness :
    ((∃ k ∈ ([0, 3, 9] : List ℤ), k < 0 ∨ (8 : ℤ) ≤ k) ↔
      ∃ k, (single_cycle_example (some [0, 3, 9]) 8 1 true true false false).2
        = .error (.valueError (oorMsg k 8))) ∧
    (∀ k, firstBad [0, 3, 9] 8 = some k →
      k ∈ ([0, 3, 9] : List ℤ) ∧ (k < 0 ∨ (8 : ℤ) ≤ k) ∧
      (single_cycle_example (some [0, 3, 9]) 8 1 true true false false).2
        = .error (.valueError (oorMsg k 8))) ∧
    (single_cycle_example (some [0, 3, 9]) 8 1 true true false false).2
      = .error (.valueError (oorMsg 9 8)) :=
  C9_range_validation 8 [0, 3, 9] 1 (by decide)

/-- `filterMap` of a constantly-`none` function is empty. -/
theorem filterMap_const_none {α β : Type} (l : List α) :
    l.filterMap (fun _ => (none : Option β)) = [] := by
  induction l with
  | nil => rfl
  | cons x xs ih => simp [List.filterMap_cons, ih]

/-- `segOf` sees no segment in node items. -/
theorem segOf_node_comp : (segOf ∘ Item.node) = fun _ => none := rfl

/-- `nodeOf` recovers the data of node items. -/
theorem nodeOf_node_comp : (nodeOf ∘ Item.node) = some := rfl

/-- The header contains no node items. -/
theorem filterMap_nodeOf_header (n : ℕ) (r : ℚ) :
    (cycleHeader n r).filterMap nodeOf = [] := rfl

/-- The header contains no segment items. -/
theorem filterMap_segOf_header (n : ℕ) (r : ℚ) :
    (cycleHeader n r).filterMap segOf = [] := rfl

/-- C10: calling the generator with an explicitly empty highlight list and
adjacent-mode lines passes validation, writes the circle header and all n
unfilled (white) node lines and no segment, then raises an uncaught
IndexError — not a ValueError — leaving a non-empty partial output. -/
theorem C10_empty_highlights (n : ℕ) (r : ℚ) (h1 : 1 ≤ n) :
    (single_cycle_example (some []) n r true true false false).2
      = .error .indexError ∧
    (single_cycle_example (some []) n r true true false false).1 ≠ [] ∧
    (single_cycle_example (some []) n r true true false false).1.length
      = 4 + n ∧
    circleLine ∈ (single_cycle_example (some []) n r true true false false).1 ∧
    (((single_cycle_example (some []) n r true true false false).1.filterMap
        nodeOf).map (·.colour) = List.replicate n "white") ∧
    ((single_cycle_example (some []) n r true true false false).1.filterMap
        nodeOf).length = n ∧
    (single_cycle_example (some []) n r true true false false).1.filterMap
        segOf = [] := by
  have hn : n ≠ 0 := by omega
  rw [scex_adj_nil n r hn]
  refine ⟨rfl, by simp [cycleHeader], ?_, ?_, ?_, ?_, ?_⟩
  · simp [cycleHeader]
    omega
  · simp [cycleHeader]
  · rw [List.filterMap_append, List.filterMap_map, filterMap_nodeOf_header,
      nodeOf_node_comp, List.filterMap_some, List.nil_append, List.map_map]
    rw [show ((NodeData.colour ·) ∘ mkNode [] n true false false "\\radius")
      = fun _ => "white" from funext (fun i => rfl)]
    simp [List.map_const']
  · rw [List.filterMap_append, List.filterMap_map, filterMap_nodeOf_header,
      nodeOf_node_comp, List.filterMap_some, List.nil_append]
    simp
  · rw [List.filterMap_append, List.filterMap_map, filterMap_segOf_header,
      segOf_node_comp, filterMap_const_none, List.nil_append]

/-- An unsorted list is not its own merge sort. -/
theorem ne_mergeSort_of_not_sorted {l : List ℤ} (h : ¬ l.Sorted (· ≤ ·)) :
    l ≠ l.mergeSort (fun a b => a ≤ b) := by
  intro he
  apply h
  rw [he]
  exact List.sorted_mergeSort' l

/-- C2 counterexample: requesting tonality labels with n = 8 (after passing
the highlight-range check) raises the InvalidLabelMode ValueError only after
the output artifact is open and the header lines are written, so partial
output has been emitted, contradicting the claim for that error. -/
theorem C2_counterexample :
    (single_cycle_example (some [0]) 8 1 true true true false).2
      = .error (.valueError (tonalityMsg 8)) ∧
    (single_cycle_example (some [0]) 8 1 true true true false).1 ≠ [] := by
  rw [scex_tonality [0] 8 1 true true (by decide) (by decide) (by decide)]
  exact ⟨rfl, by simp [cycleHeader]⟩

/-- C2 amended: OutOfRangeIndex and UnsortedTags are detected before the
output artifact is opened, so those two failures emit no output at all;
InvalidLabelMode, however, is raised only after the artifact is opened and
the scale, radius, origin and circle lines are written, leaving a non-empty
partial output. -/
theorem C2_eager_validation :
    (∀ (n : ℕ) (ks : List ℤ) (r : ℚ) (lines adj t p : Bool) (k : ℤ),
      firstBad ks n = some k →
      single_cycle_example (some ks) n r lines adj t p
        = ([], .error (.valueError (oorMsg k n)))) ∧
    (∀ (root : String) (circles : List SchemaCircle) (p : Bool),
      circles.map (·.tag) ≠ (circles.map (·.tag)).mergeSort (fun a b => a ≤ b) →
      schema_example root circles p
        = ([], .error (.valueError "Tags must be in increasing order"))) ∧
    (∀ (n : ℕ) (ks : List ℤ) (r : ℚ) (lines adj : Bool),
      firstBad ks n = none → n ≠ 0 → n ≠ 12 →
      single_cycle_example (some ks) n r lines adj true false
        = (cycleHeader n r, .error (.valueError (tonalityMsg n))) ∧
      cycleHeader n r ≠ []) := by
  refine ⟨fun n ks r l a t p k h => scex_oor ks n r l a t p k h, ?_, ?_⟩
  · intro root circles p h
    simp [schema_example, h]
  · intro n ks r lines adj h hn h12
    exact ⟨scex_tonality ks n r lines adj h hn h12, by simp [cycleHeader]⟩

/-- C2 witness: a failing range check at n = 8, ks = [9] emits nothing; an
unsorted tag list emits nothing; the tonality failure at n = 8 emits the
non-empty header. -/
theorem C2_witness :
    single_cycle_example (some [9]) 8 1 true true false false
      = ([], .error (.valueError (oorMsg 9 8))) ∧
    schema_example "C" [⟨"D", 3⟩, ⟨"E", 2⟩] false
      = ([], .error (.valueError "Tags must be in increasing order")) ∧
    (single_cycle_example (some [0]) 8 1 true true true false
      = (cycleHeader 8 1, .error (.valueError (tonalityMsg 8))) ∧
     cycleHeader 8 1 ≠ []) :=
  ⟨C2_eager_validation.1 8 [9] 1 true true false false 9 (by decide),
   C2_eager_validation.2.1 "C" [⟨"D", 3⟩, ⟨"E", 2⟩] false
     (ne_mergeSort_of_not_sorted (by decide)),
   C2_eager_validation.2.2 8 [0] 1 true true (by decide) (by decide)
     (by decide)⟩

/-- `filterMap` of an everywhere-`some` function is the map. -/
theorem filterMap_some_comp {α β : Type} (g : α → β) (l : List α) :
    l.filterMap (fun x => some (g x)) = l.map g := by
  induction l with
  | nil => rfl
  | cons x xs ih => simp [List.filterMap_cons, ih]

/-- Valid highlight lists pass the range check. -/
theorem firstBad_eq_none_of_valid {ks : List ℤ} {n : ℕ}
    (hS : ∀ k ∈ ks, 0 ≤ k ∧ k < (n : ℤ)) : firstBad ks n = none := by
  rw [firstBad, List.find?_eq_none]
  intro x hx
  have := hS x hx
  simp only [decide_eq_true_eq]
  omega

/-- C1 counterexample: in adjacent mode with highlights [1, 3] and n = 8 the
emitted segments are 1–3 and then 3–0 (closing to node 0), not the 3–1 the
claim requires (closing back to the first highlighted point). -/
theorem C1_counterexample :
    (single_cycle_example (some [1, 3]) 8 1 true true false false).1.filterMap
        segOf = [((1 : ℤ), (3 : ℤ)), (3, 0)] ∧
    (single_cycle_example (some [1, 3]) 8 1 true true false false).1.filterMap
        segOf ≠ [((1 : ℤ), (3 : ℤ)), (3, 1)] := by
  rw [scex_adj [1, 3] 8 1 (by decide) (by decide) (by decide)]
  refine ⟨?_, ?_⟩ <;>
  · rw [List.filterMap_append, List.filterMap_append, List.filterMap_append,
      List.filterMap_map, filterMap_segOf_header, segOf_node_comp,
      filterMap_const_none]
    decide

/-- C1 amended: in adjacent-line mode, for every non-empty highlighted list
ks of length m the call emits exactly m straight segments: one from each
highlighted point to the next in the order given, and a closing segment from
the last highlighted point to the point of index 0 (which is the first
highlighted point whenever the list starts with index 0); in particular for
ks = [0,3,6] with n = 8 it emits exactly the 3 segments 0–3, 3–6, 6–0. -/
theorem C1_adjacent_segments (n : ℕ) (ks : List ℤ) (r : ℚ) (h1 : 1 ≤ n)
    (hne : ks ≠ []) (hS : ∀ k ∈ ks, 0 ≤ k ∧ k < (n : ℤ)) :
    (single_cycle_example (some ks) n r true true false false).1.filterMap
        segOf
      = (List.range (ks.length - 1)).map
          (fun i => (ks.getD i 0, ks.getD (i + 1) 0))
        ++ [(ks.getLast hne, 0)] ∧
    ((single_cycle_example (some ks) n r true true false false).1.filterMap
        segOf).length = ks.length ∧
    (single_cycle_example (some [0, 3, 6]) 8 1 true true false
        false).1.filterMap segOf
      = [((0 : ℤ), (3 : ℤ)), (3, 6), (6, 0)] := by
  have hn : n ≠ 0 := by omega
  have hfb := firstBad_eq_none_of_valid hS
  rw [scex_adj ks n r hfb hn hne]
  have hsegs :
      (cycleHeader n r
        ++ ((List.range n).map (mkNode ks n true false false "\\radius")).map
          Item.node
        ++ (List.range (ks.length - 1)).map
          (fun i => Item.segment (ks.getD i 0) (ks.getD (i + 1) 0))
        ++ [Item.segment (ks.getLast hne) 0, endTikz]).filterMap segOf
      = (List.range (ks.length - 1)).map
          (fun i => (ks.getD i 0, ks.getD (i + 1) 0))
        ++ [(ks.getLast hne, 0)] := by
    rw [List.filterMap_append, List.filterMap_append, List.filterMap_append,
      List.filterMap_map, filterMap_segOf_header, segOf_node_comp,
      filterMap_const_none, List.filterMap_map]
    rw [show (segOf ∘ fun i => Item.segment (ks.getD i 0) (ks.getD (i + 1) 0))
      = fun i => some (ks.getD i 0, ks.getD (i + 1) 0) from rfl]
    rw [filterMap_some_comp]
    rfl
  refine ⟨hsegs, ?_, by decide⟩
  rw [hsegs]
  have : 0 < ks.length := List.length_pos.mpr hne
  simp
  omega

/-- C1 witness: instantiation at n = 8, ks = [0, 3, 6]. -/
theorem C1_witness :
    (single_cycle_example (some [0, 3, 6]) 8 1 true true false
        false).1.filterMap segOf
      = (List.range (([0, 3, 6] : List ℤ).length - 1)).map
          (fun i => (([0, 3, 6] : List ℤ).getD i 0,
            ([0, 3, 6] : List ℤ).getD (i + 1) 0))
        ++ [(([0, 3, 6] : List ℤ).getLast (by decide), 0)] ∧
    ((single_cycle_example (some [0, 3, 6]) 8 1 true true false
        false).1.filterMap segOf).length = ([0, 3, 6] : List ℤ).length ∧
    (single_cycle_example (some [0, 3, 6]) 8 1 true true false
        false).1.filterMap segOf
      = [((0 : ℤ), (3 : ℤ)), (3, 6), (6, 0)] :=
  C1_adjacent_segments 8 [0, 3, 6] 1 (by decide) (by decide) (by decide)

/-- C5: for startOctave < endOctave the linear table's value cells list the
integers startOctave·12 .. endOctave·12−1 in order, the pitch-class cells
are 0..11 repeated exactly (endOctave−startOctave) times, and the name cells
are the 12-entry pitch-name table repeated exactly that many times; for
octaves 4..6 that is 24 value cells 48..71 and both cyclic rows twice. -/
theorem C5_linear_table (s e : ℤ) (h : s < e) :
    (table_ints s e).length = ((e - s) * 12).toNat ∧
    (∀ j : ℕ, j < ((e - s) * 12).toNat →
      (table_ints s e).getD j 0 = s * 12 + (j : ℤ)) ∧
    table_pcs s e
      = (List.replicate (e - s).toNat ((List.range 12).map Int.ofNat)).flatten ∧
    table_names s e = (List.replicate (e - s).toNat pitch_name_list).flatten ∧
    table_ints 4 6 = [48, 49, 50, 51, 52, 53, 54, 55, 56, 57, 58, 59, 60,
      61, 62, 63, 64, 65, 66, 67, 68, 69, 70, 71] ∧
    (table_ints 4 6).length = 24 ∧
    table_pcs 4 6
      = ((List.range 12).map Int.ofNat) ++ ((List.range 12).map Int.ofNat) ∧
    table_names 4 6 = pitch_name_list ++ pitch_name_list := by
  have he : (e - s) * 12 = e * 12 - s * 12 := by ring
  refine ⟨?_, ?_, rfl, rfl, by decide, by decide, by decide, by decide⟩
  · simp [table_ints, he]
  · intro j hj
    rw [he] at hj
    rw [table_ints, getD_map_range hj]

/-- C5 witness: instantiation at octaves 4 and 6 (cell 5 is MIDI 53). -/
theorem C5_witness :
    (table_ints 4 6).length = (((6 : ℤ) - 4) * 12).toNat ∧
    (table_ints 4 6).getD 5 0 = (4 : ℤ) * 12 + ((5 : ℕ) : ℤ) ∧
    table_ints 4 6 = [48, 49, 50, 51, 52, 53, 54, 55, 56, 57, 58, 59, 60,
      61, 62, 63, 64, 65, 66, 67, 68, 69, 70, 71] ∧
    table_pcs 4 6
      = ((List.range 12).map Int.ofNat) ++ ((List.range 12).map Int.ofNat) ∧
    table_names 4 6 = pitch_name_list ++ pitch_name_list :=
  ⟨(C5_linear_table 4 6 (by decide)).1,
   (C5_linear_table 4 6 (by decide)).2.1 5 (by decide),
   (C5_linear_table 4 6 (by decide)).2.2.2.2.1,
   (C5_linear_table 4 6 (by decide)).2.2.2.2.2.2.1,
   (C5_linear_table 4 6 (by decide)).2.2.2.2.2.2.2⟩

/-- C6 counterexample: with n_divs = 5 and span 8, row 0 contains no
rectangle, so its widths sum to 0, not to the span 8 as the claim requires
of every row index k from 0 to n_divs−1. -/
theorem C6_counterexample :
    (grid_rows 5 8).getD 0 [] = [] ∧
    ((((grid_rows 5 8).getD 0 []).map (fun rc => rc.x1 - rc.x0)).sum = 0) ∧
    ((0 : ℚ) ≠ 8) := by
  refine ⟨rfl, rfl, by norm_num⟩

/-- C6 amended: the generator produces n_divs rows, row k occupying the
vertical band [k, k+1); row 0 contains no rectangles, and every row k with
1 ≤ k ≤ n_divs−1 contains exactly k rectangles of equal width L/k, each
labeled "1/k", whose widths sum exactly to L and which tile the span [0,L];
so n_divs = 5 gives rows with 0, 1, 2, 3, 4 rectangles respectively. -/
theorem C6_grid_tatum (n_divs : ℕ) (L : ℚ) (k : ℕ) (hk : k < n_divs) :
    (grid_rows n_divs L).length = n_divs ∧
    (grid_rows n_divs L).getD 0 [] = [] ∧
    (1 ≤ k →
      ((grid_rows n_divs L).getD k []).length = k ∧
      (∀ j, j < k →
        ((grid_rows n_divs L).getD k []).getD j dRect
          = ⟨L * (j : ℚ) / (k : ℚ), (k : ℚ), ((j : ℚ) + 1) * L / (k : ℚ),
              (k : ℚ) + 1, "1/" ++ toString k⟩ ∧
        (((grid_rows n_divs L).getD k []).getD j dRect).x1
          - (((grid_rows n_divs L).getD k []).getD j dRect).x0
          = L / (k : ℚ)) ∧
      ((((grid_rows n_divs L).getD k []).map (fun rc => rc.x1 - rc.x0)).sum
        = L) ∧
      ((((grid_rows n_divs L).getD k []).getD 0 dRect).x0 = 0) ∧
      ((((grid_rows n_divs L).getD k []).getD (k - 1) dRect).x1 = L) ∧
      (∀ j, j + 1 < k →
        (((grid_rows n_divs L).getD k []).getD j dRect).x1
          = (((grid_rows n_divs L).getD k []).getD (j + 1) dRect).x0)) := by
  have hlen : (grid_rows n_divs L).length = n_divs := by simp [grid_rows]
  refine ⟨hlen, ?_, ?_⟩
  · rcases Nat.eq_zero_or_pos n_divs with h0 | h0
    · simp [grid_rows, h0]
    · rw [grid_rows, getD_map_range h0]
      simp
  · intro hk1
    have hk0 : (k : ℚ) ≠ 0 := by
      simpa using (by omega : k ≠ 0)
    have hrow : (grid_rows n_divs L).getD k []
        = (List.range k).map (fun (i : ℕ) =>
            ({ x0 := L * (i : ℚ) / (k : ℚ), y0 := (k : ℚ),
               x1 := ((i : ℚ) + 1) * L / (k : ℚ), y1 := (k : ℚ) + 1,
               label := "1/" ++ toString k } : Rect)) := by
      rw [grid_rows, getD_map_range hk]
    rw [hrow]
    have hwidth : ∀ i : ℕ, ((i : ℚ) + 1) * L / (k : ℚ) - L * (i : ℚ) / (k : ℚ)
        = L / (k : ℚ) := by
      intro i
      field_simp
      ring
    refine ⟨by simp, ?_, ?_, ?_, ?_, ?_⟩
    · intro j hj
      rw [getD_map_range hj]
      exact ⟨rfl, hwidth j⟩
    · rw [List.map_map]
      rw [show ((fun rc : Rect => rc.x1 - rc.x0) ∘ fun i : ℕ =>
          ({ x0 := L * (i : ℚ) / (k : ℚ), y0 := (k : ℚ),
             x1 := ((i : ℚ) + 1) * L / (k : ℚ), y1 := (k : ℚ) + 1,
             label := "1/" ++ toString k } : Rect))
        = fun i : ℕ => L / (k : ℚ) from funext (fun i => hwidth i)]
      rw [List.map_const', List.length_range, List.sum_replicate,
        nsmul_eq_mul]
      field_simp
    · rw [getD_map_range hk1]
      simp
    · have hklt : k - 1 < k := by omega
      rw [getD_map_range hklt]
      show ((((k : ℕ) - 1 : ℕ) : ℚ) + 1) * L / (k : ℚ) = L
      rw [Nat.cast_sub hk1]
      push_cast
      field_simp
    · intro j hj
      rw [getD_map_range (by omega : j < k), getD_map_range (by omega : j + 1 < k)]
      show ((j : ℚ) + 1) * L / (k : ℚ) = L * (((j : ℕ) + 1 : ℕ) : ℚ) / (k : ℚ)
      push_cast
      ring

/-- C6 witness: instantiation at n_divs = 5, span 8, row k = 2. -/
theorem C6_witness :
    (grid_rows 5 8).length = 5 ∧
    (grid_rows 5 8).getD 0 [] = [] ∧
    ((grid_rows 5 8).getD 2 []).length = 2 ∧
    ((((grid_rows 5 8).getD 2 []).map (fun rc => rc.x1 - rc.x0)).sum
      = (8 : ℚ)) ∧
    ((((grid_rows 5 8).getD 2 []).getD 0 dRect).x0 = 0) ∧
    ((((grid_rows 5 8).getD 2 []).getD (2 - 1) dRect).x1 = (8 : ℚ)) :=
  ⟨(C6_grid_tatum 5 8 2 (by decide)).1,
   (C6_grid_tatum 5 8 2 (by decide)).2.1,
   ((C6_grid_tatum 5 8 2 (by decide)).2.2 (by decide)).1,
   ((C6_grid_tatum 5 8 2 (by decide)).2.2 (by decide)).2.2.1,
   ((C6_grid_tatum 5 8 2 (by decide)).2.2 (by decide)).2.2.2.1,
   ((C6_grid_tatum 5 8 2 (by decide)).2.2 (by decide)).2.2.2.2.1⟩

/-- The arrow loop yields one arrow per circle. -/
theorem schema_arrows_aux_length (l : List SchemaCircle) :
    ∀ (i : ℕ) (b : ℤ), (schema_arrows_aux i b l).length = l.length := by
  induction l with
  | nil => intro i b; rfl
  | cons c rest ih =>
    intro i b
    simp [schema_arrows_aux, ih]

/-- Closed form of the arrow loop: the j-th arrow from start state (i, b)
targets node i+j+1, bends by b + 20·j, and curves by the parity of i+j. -/
theorem schema_arrows_aux_getD (l : List SchemaCircle) :
    ∀ (i : ℕ) (b : ℤ) (j : ℕ), j < l.length →
      (schema_arrows_aux i b l).getD j dArrow
        = ⟨i + j + 1, if (i + j) % 2 = 0 then "left" else "right",
            b + 20 * (j : ℤ), (l.getD j dCircle).tag⟩ := by
  induction l with
  | nil => intro i b j hj; cases hj
  | cons c rest ih =>
    intro i b j hj
    match j with
    | 0 => simp [schema_arrows_aux]
    | j' + 1 =>
      rw [schema_arrows_aux]
      show (schema_arrows_aux (i + 1) (b + 20) rest).getD j' dArrow = _
      rw [ih (i + 1) (b + 20) j' (by simpa using hj)]
      have h1 : i + 1 + j' = i + (j' + 1) := by omega
      have h2 : b + 20 + 20 * (j' : ℤ) = b + 20 * ((j' : ℕ) + 1 : ℕ) := by
        push_cast
        ring
      rw [h1, h2]
      rfl

/-- A sorted-tags, non-empty call of `schema_example` completes and its
arrow items are exactly `schema_arrows circles`. -/
theorem schema_ok (root : String) (circles : List SchemaCircle) (p : Bool)
    (hs : circles.map (·.tag)
      = (circles.map (·.tag)).mergeSort (fun a b => a ≤ b))
    (hne : circles ≠ []) :
    (schema_example root circles p).2 = .ok () ∧
    (schema_example root circles p).1.filterMap arrowOf
      = schema_arrows circles := by
  match circles, hne with
  | c :: cs, _ =>
    rw [schema_example]
    dsimp only
    rw [if_neg (not_not_intro hs), List.length_cons]
    constructor
    · rfl
    · rw [List.filterMap_append, List.filterMap_append,
        List.filterMap_append, List.filterMap_append, List.filterMap_append,
        List.filterMap_append, List.filterMap_map, List.filterMap_map]
      rw [show (arrowOf ∘ fun i : ℕ =>
        SItem.topNode (i + 1) (((c :: cs).getD i ⟨"", 0⟩).name))
        = fun _ => none from rfl]
      rw [show (arrowOf ∘ SItem.arrow) = some from rfl, List.filterMap_some,
        filterMap_const_none]
      cases p <;> simp [arrowOf]

/-- C7: for every valid schema input (tags non-decreasing) with at least one
upper node, the call completes and emits exactly one curved arrow per upper
node i (targeting node top(i+1)), with bend angle 20·i and direction
alternating by parity, "left" for even i and "right" for odd i. -/
theorem C7_schema_arrows (root : String) (circles : List SchemaCircle)
    (p : Bool) (hs : (circles.map (·.tag)).Sorted (· ≤ ·))
    (hne : circles ≠ []) :
    (schema_example root circles p).2 = .ok () ∧
    ((schema_example root circles p).1.filterMap arrowOf).length
      = circles.length ∧
    (∀ i, i < circles.length →
      ((schema_example root circles p).1.filterMap arrowOf).getD i dArrow
        = ⟨i + 1, if i % 2 = 0 then "left" else "right", 20 * (i : ℤ),
            (circles.getD i dCircle).tag⟩) := by
  have hs' : circles.map (·.tag)
      = (circles.map (·.tag)).mergeSort (fun a b => a ≤ b) :=
    (List.mergeSort_eq_self hs).symm
  obtain ⟨hok, harr⟩ := schema_ok root circles p hs' hne
  refine ⟨hok, ?_, ?_⟩
  · rw [harr, schema_arrows, schema_arrows_aux_length]
  · intro i hi
    rw [harr, schema_arrows, schema_arrows_aux_getD circles 0 0 i hi]
    simp

/-- C7 witness: instantiation at the worked example of the module: root C
with upper nodes (D,2), (E,3), (F,4); the second arrow bends right by 20. -/
theorem C7_witness :
    (schema_example "C" [⟨"D", 2⟩, ⟨"E", 3⟩, ⟨"F", 4⟩] false).2 = .ok () ∧
    ((schema_example "C" [⟨"D", 2⟩, ⟨"E", 3⟩, ⟨"F", 4⟩]
        false).1.filterMap arrowOf).length
      = ([⟨"D", 2⟩, ⟨"E", 3⟩, ⟨"F", 4⟩] : List SchemaCircle).length ∧
    ((schema_example "C" [⟨"D", 2⟩, ⟨"E", 3⟩, ⟨"F", 4⟩]
        false).1.filterMap arrowOf).getD 1 dArrow
      = ⟨1 + 1, if 1 % 2 = 0 then "left" else "right", 20 * ((1 : ℕ) : ℤ),
          (([⟨"D", 2⟩, ⟨"E", 3⟩, ⟨"F", 4⟩] : List SchemaCircle).getD 1
            dCircle).tag⟩ :=
  ⟨(C7_schema_arrows "C" [⟨"D", 2⟩, ⟨"E", 3⟩, ⟨"F", 4⟩] false (by decide)
      (by decide)).1,
   (C7_schema_arrows "C" [⟨"D", 2⟩, ⟨"E", 3⟩, ⟨"F", 4⟩] false (by decide)
      (by decide)).2.1,
   (C7_schema_arrows "C" [⟨"D", 2⟩, ⟨"E", 3⟩, ⟨"F", 4⟩] false (by decide)
      (by decide)).2.2 1 (by decide)⟩

/-- `combinations(ks, 2)` has C(m, 2) elements. -/
theorem combinations2_length (l : List ℤ) :
    (combinations2 l).length = l.length.choose 2 := by
  induction l with
  | nil => rfl
  | cons x xs ih =>
    rw [combinations2, List.length_append, List.length_map, ih,
      List.length_cons, Nat.choose_succ_succ, Nat.choose_one_right]

/-- Both components of an emitted pair are highlighted points. -/
theorem mem_combinations2 {l : List ℤ} {p : ℤ × ℤ}
    (hp : p ∈ combinations2 l) : p.1 ∈ l ∧ p.2 ∈ l := by
  induction l with
  | nil => cases hp
  | cons x xs ih =>
    rw [combinations2, List.mem_append] at hp
    rcases hp with hp | hp
    · obtain ⟨y, hy, hxy⟩ := List.mem_map.mp hp
      cases hxy
      exact ⟨List.mem_cons_self x xs, List.mem_cons_of_mem x hy⟩
    · exact ⟨List.mem_cons_of_mem x (ih hp).1,
        List.mem_cons_of_mem x (ih hp).2⟩

/-- On a duplicate-free list, emitted pairs have distinct components. -/
theorem combinations2_ne {l : List ℤ} (hd : l.Nodup) {p : ℤ × ℤ}
    (hp : p ∈ combinations2 l) : p.1 ≠ p.2 := by
  induction l with
  | nil => cases hp
  | cons x xs ih =>
    obtain ⟨hx, hnd⟩ := List.nodup_cons.mp hd
    rw [combinations2, List.mem_append] at hp
    rcases hp with hp | hp
    · obtain ⟨y, hy, hxy⟩ := List.mem_map.mp hp
      cases hxy
      show x ≠ y
      intro h
      exact hx (h ▸ hy)
    · exact ih hnd hp

/-- No pair involving a value outside the list is emitted. -/
theorem combinations2_countP_zero {xs : List ℤ} {a b : ℤ}
    (h : a ∉ xs ∨ b ∉ xs) :
    (combinations2 xs).countP
      (fun p => decide (p = (a, b) ∨ p = (b, a))) = 0 := by
  rw [List.countP_eq_zero]
  intro p hp
  have hm := mem_combinations2 hp
  simp only [decide_eq_true_eq, not_or]
  constructor
  · intro he
    rw [he] at hm
    rcases h with h | h
    · exact h hm.1
    · exact h hm.2
  · intro he
    rw [he] at hm
    rcases h with h | h
    · exact h hm.2
    · exact h hm.1

/-- On a duplicate-free list, each present value is matched exactly once. -/
theorem countP_eq_decide_one {b : ℤ} :
    ∀ {xs : List ℤ}, xs.Nodup → b ∈ xs →
      xs.countP (fun y => decide (y = b)) = 1 := by
  intro xs
  induction xs with
  | nil => intro _ hb; cases hb
  | cons x l ih =>
    intro hnd hb
    obtain ⟨hx, hnd'⟩ := List.nodup_cons.mp hnd
    rw [List.countP_cons]
    rcases List.mem_cons.mp hb with h | h
    · cases h
      have h0 : List.countP (fun y => decide (y = b)) l = 0 := by
        rw [List.countP_eq_zero]
        intro y hy
        simp only [decide_eq_true_eq]
        intro he
        exact hx (he ▸ hy)
      simp [h0]
    · have hxb : ¬ (x = b) := fun he => hx (he ▸ h)
      simp [ih hnd' h, hxb]

/-- Each unordered pair of distinct members is emitted exactly once by
`combinations(ks, 2)` when the list is duplicate-free. -/
theorem combinations2_countP {a b : ℤ} (hab : a ≠ b) :
    ∀ l : List ℤ, l.Nodup → a ∈ l → b ∈ l →
      (combinations2 l).countP
        (fun p => decide (p = (a, b) ∨ p = (b, a))) = 1 := by
  intro l
  induction l with
  | nil => intro _ ha _; cases ha
  | cons x xs ih =>
    intro hd ha hb
    obtain ⟨hx, hnd⟩ := List.nodup_cons.mp hd
    rw [combinations2, List.countP_append, List.countP_map]
    by_cases hxa : x = a
    · cases hxa
      have hbxs : b ∈ xs := by
        rcases List.mem_cons.mp hb with h | h
        · exact absurd h.symm hab
        · exact h
      have hiff : ∀ y : ℤ, ((a, y) = (a, b) ∨ (a, y) = (b, a)) ↔ y = b := by
        intro y
        constructor
        · rintro (h | h)
          · injection h with h1 h2
          · injection h with h1 h2
            exact absurd h1 hab
        · intro h
          subst h
          exact Or.inl rfl
      have hmap : List.countP
          ((fun p => decide (p = (a, b) ∨ p = (b, a))) ∘ fun y => (a, y)) xs
          = List.countP (fun y => decide (y = b)) xs := by
        apply List.countP_congr
        intro y _
        show decide ((a, y) = (a, b) ∨ (a, y) = (b, a)) = true
          ↔ decide (y = b) = true
        rw [decide_eq_true_eq, decide_eq_true_eq]
        exact hiff y
      rw [hmap, countP_eq_decide_one hnd hbxs,
        combinations2_countP_zero (Or.inl hx)]
    · by_cases hxb : x = b
      · cases hxb
        have haxs : a ∈ xs := by
          rcases List.mem_cons.mp ha with h | h
          · exact absurd h hab
          · exact h
        have hiff : ∀ y : ℤ, ((b, y) = (a, b) ∨ (b, y) = (b, a)) ↔ y = a := by
          intro y
          constructor
          · rintro (h | h)
            · injection h with h1 h2
              exact absurd h1.symm hab
            · injection h with h1 h2
          · intro h
            subst h
            exact Or.inr rfl
        have hmap : List.countP
            ((fun p => decide (p = (a, b) ∨ p = (b, a))) ∘ fun y => (b, y)) xs
            = List.countP (fun y => decide (y = a)) xs := by
          apply List.countP_congr
          intro y _
          show decide ((b, y) = (a, b) ∨ (b, y) = (b, a)) = true
            ↔ decide (y = a) = true
          rw [decide_eq_true_eq, decide_eq_true_eq]
          exact hiff y
        rw [hmap, countP_eq_decide_one hnd haxs,
          combinations2_countP_zero (Or.inr hx)]
      · have haxs : a ∈ xs := by
          rcases List.mem_cons.mp ha with h | h
          · exact absurd h.symm hxa
          · exact h
        have hbxs : b ∈ xs := by
          rcases List.mem_cons.mp hb with h | h
          · exact absurd h.symm hxb
          · exact h
        have hmap : List.countP
            ((fun p => decide (p = (a, b) ∨ p = (b, a))) ∘ fun y => (x, y)) xs
            = 0 := by
          rw [List.countP_eq_zero]
          intro y _
          simp only [Function.comp_apply, decide_eq_true_eq, Prod.mk.injEq,
            not_or]
          exact ⟨fun he => hxa he.1, fun he => hxb he.1⟩
        rw [hmap, ih hnd haxs hbxs]

/-- The segments of an all-pairs run are exactly `combinations(ks, 2)`. -/
theorem allpairs_segments (ks : List ℤ) (n : ℕ) (r : ℚ)
    (h : firstBad ks n = none) (hn : n ≠ 0) :
    (single_cycle_example (some ks) n r true false false false).1.filterMap
      segOf = combinations2 ks := by
  rw [scex_allpairs ks n r h hn]
  rw [List.filterMap_append, List.filterMap_append, List.filterMap_append,
    List.filterMap_map, filterMap_segOf_header, segOf_node_comp,
    filterMap_const_none, List.filterMap_map]
  rw [show (segOf ∘ fun p : ℤ × ℤ => Item.segment p.1 p.2)
    = fun p => some (p.1, p.2) from rfl]
  rw [filterMap_some_comp]
  simp [endTikz, segOf]

/-- C8: in all-pairs line mode, a highlighted list of m distinct valid
indices yields exactly C(m,2) = m(m−1)/2 segments, one per unordered pair
of highlighted points, each unordered pair appearing exactly once. -/
theorem C8_all_pairs (n : ℕ) (ks : List ℤ) (r : ℚ) (h1 : 1 ≤ n)
    (hnd : ks.Nodup) (hS : ∀ k ∈ ks, 0 ≤ k ∧ k < (n : ℤ)) :
    ((single_cycle_example (some ks) n r true false false false).1.filterMap
      segOf).length = ks.length.choose 2 ∧
    (∀ a b : ℤ, a ∈ ks → b ∈ ks → a ≠ b →
      ((single_cycle_example (some ks) n r true false false
          false).1.filterMap segOf).countP
        (fun p => decide (p = (a, b) ∨ p = (b, a))) = 1) ∧
    (∀ p ∈ (single_cycle_example (some ks) n r true false false
        false).1.filterMap segOf,
      p.1 ∈ ks ∧ p.2 ∈ ks ∧ p.1 ≠ p.2) := by
  have hn : n ≠ 0 := by omega
  have hseg := allpairs_segments ks n r (firstBad_eq_none_of_valid hS) hn
  rw [hseg]
  refine ⟨combinations2_length ks, ?_, ?_⟩
  · intro a b ha hb hab
    exact combinations2_countP hab ks hnd ha hb
  · intro p hp
    exact ⟨(mem_combinations2 hp).1, (mem_combinations2 hp).2,
      combinations2_ne hnd hp⟩

/-- C8 witness: instantiation at the double-tresillo example (n = 16,
highlights [0,3,6,8,11,14]): 15 segments, and the pair 3–8 appears once. -/
theorem C8_witness :
    ((single_cycle_example (some [0, 3, 6, 8, 11, 14]) 16 1 true false false
      false).1.filterMap segOf).length
      = ([0, 3, 6, 8, 11, 14] : List ℤ).length.choose 2 ∧
    ((single_cycle_example (some [0, 3, 6, 8, 11, 14]) 16 1 true false false
        false).1.filterMap segOf).countP
      (fun p => decide (p = ((3 : ℤ), (8 : ℤ)) ∨ p = (8, 3))) = 1 :=
  ⟨(C8_all_pairs 16 [0, 3, 6, 8, 11, 14] 1 (by decide) (by decide)
      (by decide)).1,
   (C8_all_pairs 16 [0, 3, 6, 8, 11, 14] 1 (by decide) (by decide)
      (by decide)).2.1 3 8 (by decide) (by decide) (by decide)⟩

/-- C10 witness: instantiation at n = 8. -/
theorem C10_witness :
    (single_cycle_example (some []) 8 1 true true false false).2
      = .error .indexError ∧
    (single_cycle_example (some []) 8 1 true true false false).1 ≠ [] ∧
    (single_cycle_example (some []) 8 1 true true false false).1.length
      = 4 + 8 ∧
    circleLine ∈ (single_cycle_example (some []) 8 1 true true false false).1 ∧
    (((single_cycle_example (some []) 8 1 true true false false).1.filterMap
        nodeOf).map (·.colour) = List.replicate 8 "white") ∧
    ((single_cycle_example (some []) 8 1 true true false false).1.filterMap
        nodeOf).length = 8 ∧
    (single_cycle_example (some []) 8 1 true true false false).1.filterMap
        segOf = [] :=
  C10_empty_highlights 8 1 (by decide)
